import Mathlib

/-!
Verification of the Mirage synthesizer engine (audioSystem) against its
natural-language specification.

The C++ sources are shallowly embedded: `float` values become exact
rationals (`ℚ`), `std::size_t` becomes `ℕ`, `int` becomes `ℤ`, vectors
become lists, and member functions become pure state-passing functions.
Transcendental library calls (`std::sin`, `std::cos`) have no exact
rational counterpart; where a source function consumes them the computed
values are supplied by an explicit oracle parameter, so every branching
and arithmetic decision of the source remains in the model.  Float
rounding, NaN and thread interleavings are outside this rational model.
-/

namespace Mirage

/-- Rational mirror of the `clampValue` template used by the effects:
`(value < low) ? low : (value > high ? high : value)`. -/
def clampQ (value low high : ℚ) : ℚ :=
  if value < low then low else if high < value then high else value

/-- `clampValue` instantiated at `std::size_t`. -/
def clampN (value low high : ℕ) : ℕ :=
  if value < low then low else if high < value then high else value

/-- `static_cast<std::size_t>(std::round(x))` for the non-negative
arguments produced by the delay effect (`std::round` rounds half away
from zero; for `x ≥ 0` that is `⌊x + 1/2⌋`). -/
def roundN (x : ℚ) : ℕ :=
  if x < 0 then 0 else (Int.floor (x + 1/2)).toNat

/-- `static_cast<std::size_t>(std::ceil(x))` for non-negative arguments. -/
def ceilN (x : ℚ) : ℕ :=
  (Int.ceil x).toNat

/-! ## StereoSampleRingBuffer (Core/StereoSampleRingBuffer.h)

The interleaved sample store `m_buffer` (of `capacity * 2` floats) is a
list of rationals; the atomic indices are plain naturals since all
claims about the buffer are stated for single-threaded execution. -/

structure StereoSampleRingBuffer where
  capacityFrames : ℕ
  buffer : List ℚ
  writeIndex : ℕ
  totalFramesWritten : ℕ
  deriving DecidableEq, Repr

namespace StereoSampleRingBuffer

/-- Constructor: capacity is clamped to at least one frame and the
interleaved store holds `capacity * 2` zero samples. -/
def create (capacityFrames : ℕ) : StereoSampleRingBuffer :=
  let cap := max 1 capacityFrames
  { capacityFrames := cap
    buffer := List.replicate (cap * 2) 0
    writeIndex := 0
    totalFramesWritten := 0 }

/-- `push(left, right)`: write both samples at the current frame, bump
the write index with wrap-around, count the frame. -/
def push (s : StereoSampleRingBuffer) (left right : ℚ) : StereoSampleRingBuffer :=
  let frameIndex := s.writeIndex
  let sampleIndex := frameIndex * 2
  let buf := (s.buffer.set sampleIndex left).set (sampleIndex + 1) right
  let frameIndex := frameIndex + 1
  let frameIndex := if s.capacityFrames ≤ frameIndex then 0 else frameIndex
  { s with buffer := buf, writeIndex := frameIndex,
           totalFramesWritten := s.totalFramesWritten + 1 }

/-- `availableFrames()` -/
def availableFrames (s : StereoSampleRingBuffer) : ℕ :=
  min s.totalFramesWritten s.capacityFrames

/-- `copyLatestInterleaved(dest, maxFrames)`: the returned pair is the
frame count together with the interleaved contents written to `dest`
(the null-`dest` guard of the source has no counterpart for a value
result). -/
def copyLatestInterleaved (s : StereoSampleRingBuffer) (maxFrames : ℕ) : ℕ × List ℚ :=
  if maxFrames = 0 then (0, [])
  else
    let avail := s.availableFrames
    let framesToCopy := min maxFrames avail
    if framesToCopy = 0 then (0, [])
    else
      let writeIndex := s.writeIndex
      let startFrame0 := writeIndex + s.capacityFrames - framesToCopy
      let startFrame :=
        if s.capacityFrames ≤ startFrame0 then startFrame0 % s.capacityFrames
        else startFrame0
      (framesToCopy,
        ((List.range framesToCopy).map (fun i =>
          let frameIndex0 := startFrame + i
          let frameIndex :=
            if s.capacityFrames ≤ frameIndex0 then frameIndex0 - s.capacityFrames
            else frameIndex0
          let sampleIndex := frameIndex * 2
          [s.buffer.getD sampleIndex 0, s.buffer.getD (sampleIndex + 1) 0])).flatten)

/-- Fold a sequence of pushes over the buffer (the single-threaded
producer of the specification's property 6). -/
def pushAll (s : StereoSampleRingBuffer) (xs : List (ℚ × ℚ)) : StereoSampleRingBuffer :=
  xs.foldl (fun s p => s.push p.1 p.2) s

end StereoSampleRingBuffer

/-- The expected interleaved L/R image of a list of frames, from the
spec sentence: the N most recent (L,R) pairs in order. -/
def interleave : List (ℚ × ℚ) → List ℚ
  | [] => []
  | p :: ps => p.1 :: p.2 :: interleave ps

/-! ## DelayEffect (Effects/DelayEffect.cpp, Effects/DelayEffect.h) -/

def kMinDelaySeconds : ℚ := 5/1000
def kMaxDelaySeconds : ℚ := 5/2
def kMaxFeedback : ℚ := 97/100

structure DelayEffect where
  bufferLeft : List ℚ
  bufferRight : List ℚ
  writeIndex : ℕ
  delaySamples : ℕ
  delayTime : ℚ
  feedback : ℚ
  mix : ℚ
  sampleRate : ℚ
  deriving DecidableEq, Repr

namespace DelayEffect

/-- `bufferLength()` = `m_bufferLeft.size()`. -/
def bufferLength (d : DelayEffect) : ℕ := d.bufferLeft.length

/-- `allocateBuffers()`: size both circular buffers for
`ceil(kMaxDelaySeconds * sampleRate) + 1` samples (at least 2), then pull
the write index and delay offset back into range if the size shrank. -/
def allocateBuffers (d : DelayEffect) : DelayEffect :=
  let requiredSamples := ceilN (kMaxDelaySeconds * d.sampleRate) + 1
  let targetSize := max requiredSamples 2
  let d :=
    if targetSize ≠ d.bufferLength then
      { d with bufferLeft := List.replicate targetSize 0
               bufferRight := List.replicate targetSize 0 }
    else d
  let d := if targetSize ≤ d.writeIndex then { d with writeIndex := 0 } else d
  if targetSize ≤ d.delaySamples then { d with delaySamples := targetSize - 1 } else d

/-- `updateDelaySamples()`: round `delayTime * sampleRate` and clamp the
result into `[1, length - 1]`. -/
def updateDelaySamples (d : DelayEffect) : DelayEffect :=
  let length := d.bufferLength
  if length = 0 then d
  else
    let samples := roundN (d.delayTime * d.sampleRate)
    { d with delaySamples := clampN samples 1 (length - 1) }

/-- `reset()`: zero both buffers and rewind the write index. -/
def reset (d : DelayEffect) : DelayEffect :=
  { d with bufferLeft := List.replicate d.bufferLeft.length 0
           bufferRight := List.replicate d.bufferRight.length 0
           writeIndex := 0 }

/-- Constructor `DelayEffect(delayTime, feedback, mix, sampleRate)`. -/
def create (delayTime feedback mix sampleRate : ℚ) : DelayEffect :=
  let d : DelayEffect :=
    { bufferLeft := []
      bufferRight := []
      writeIndex := 0
      delaySamples := 1
      delayTime := clampQ delayTime kMinDelaySeconds kMaxDelaySeconds
      feedback := clampQ feedback 0 kMaxFeedback
      mix := clampQ mix 0 1
      sampleRate := max sampleRate 100 }
  d.allocateBuffers.updateDelaySamples.reset

/-- `process(stereoSample)`: returns the output sample pair and the
updated effect state. -/
def process (d : DelayEffect) (stereoSample : ℚ × ℚ) : (ℚ × ℚ) × DelayEffect :=
  let length := d.bufferLength
  if length = 0 then (stereoSample, d)
  else
    let readIndex := (d.writeIndex + length - d.delaySamples) % length
    let delayedLeft := d.bufferLeft.getD readIndex 0
    let delayedRight := d.bufferRight.getD readIndex 0
    let feedbackLeft := stereoSample.1 + delayedLeft * d.feedback
    let feedbackRight := stereoSample.2 + delayedRight * d.feedback
    let bufL := d.bufferLeft.set d.writeIndex (clampQ feedbackLeft (-2) 2)
    let bufR := d.bufferRight.set d.writeIndex (clampQ feedbackRight (-2) 2)
    let dryCoeff := 1 - d.mix
    let wetCoeff := d.mix
    let outLeft := dryCoeff * stereoSample.1 + wetCoeff * delayedLeft
    let outRight := dryCoeff * stereoSample.2 + wetCoeff * delayedRight
    ((outLeft, outRight),
      { d with bufferLeft := bufL, bufferRight := bufR,
               writeIndex := (d.writeIndex + 1) % length })

/-- `setSampleRate(sampleRate)`: ignore rates `≤ 100` and changes below
the `1e-3` epsilon; otherwise store, reallocate and recompute the delay. -/
def setSampleRate (d : DelayEffect) (sampleRate : ℚ) : DelayEffect :=
  if sampleRate ≤ 100 then d
  else if |sampleRate - d.sampleRate| < 1/1000 then d
  else ({ d with sampleRate := sampleRate }).allocateBuffers.updateDelaySamples

/-- `setDelayTime(delayTime)` -/
def setDelayTime (d : DelayEffect) (delayTime : ℚ) : DelayEffect :=
  let clamped := clampQ delayTime kMinDelaySeconds kMaxDelaySeconds
  if |clamped - d.delayTime| < 1/1000000 then d
  else ({ d with delayTime := clamped }).updateDelaySamples

/-- `setFeedback(feedback)` -/
def setFeedback (d : DelayEffect) (feedback : ℚ) : DelayEffect :=
  { d with feedback := clampQ feedback 0 kMaxFeedback }

/-- `setMix(mix)` -/
def setMix (d : DelayEffect) (mix : ℚ) : DelayEffect :=
  { d with mix := clampQ mix 0 1 }

end DelayEffect

/-- One public operation on a `DelayEffect`, for stating the state
invariant over arbitrary call sequences. -/
inductive DelayOp where
  | process (x : ℚ × ℚ)
  | reset
  | setDelayTime (t : ℚ)
  | setFeedback (f : ℚ)
  | setMix (m : ℚ)
  | setSampleRate (sr : ℚ)
  deriving DecidableEq, Repr

namespace DelayEffect

/-- Apply one public operation (the sample pair returned by `process`
is dropped; only the state matters for the invariant). -/
def applyOp (d : DelayEffect) : DelayOp → DelayEffect
  | .process x => (d.process x).2
  | .reset => d.reset
  | .setDelayTime t => d.setDelayTime t
  | .setFeedback f => d.setFeedback f
  | .setMix m => d.setMix m
  | .setSampleRate sr => d.setSampleRate sr

/-- Apply a sequence of public operations. -/
def applyOps (d : DelayEffect) (ops : List DelayOp) : DelayEffect :=
  ops.foldl applyOp d

/-- The state invariant of the specification (§3 Invariants): the write
index is inside the buffer, the delay offset lies in `[1, length - 1]`,
and the buffer holds at least two samples. -/
def Inv (d : DelayEffect) : Prop :=
  d.writeIndex < d.bufferLength ∧
  1 ≤ d.delaySamples ∧
  d.delaySamples ≤ d.bufferLength - 1 ∧
  2 ≤ d.bufferLength

instance (d : DelayEffect) : Decidable d.Inv := by
  unfold Inv; infer_instance

end DelayEffect

/-! ## LowPassEffect (Effects/LowPassEffect.cpp, Effects/LowPassEffect.h)

`updateCoefficients` evaluates `std::sin` and `std::cos` at
`ω = 2π·cutoff/sampleRate`.  These transcendental values are supplied by
an oracle `trig : ℚ → ℚ → ℚ × ℚ` mapping `(cutoff, sampleRate)` to
`(sin ω, cos ω)`; every other arithmetic step and branch of the source
is reproduced exactly, so all theorems below quantify over the oracle
(or refute the claim for explicit oracle values). -/

def kMinCutoff : ℚ := 20
def kMaxCutoffRatio : ℚ := 45/100
def kMinSampleRate : ℚ := 100
def kMinQ : ℚ := 1/10
def kMaxQ : ℚ := 10

structure LowPassEffect where
  cutoff : ℚ
  sampleRate : ℚ
  q : ℚ
  mix : ℚ
  b0 : ℚ
  b1 : ℚ
  b2 : ℚ
  a1 : ℚ
  a2 : ℚ
  z1L : ℚ
  z2L : ℚ
  z1R : ℚ
  z2R : ℚ
  deriving DecidableEq, Repr

namespace LowPassEffect

/-- `updateCoefficients()`: collapse to pass-through when the Nyquist
frequency does not exceed the 20 Hz cutoff floor, otherwise compute the
normalized RBJ low-pass coefficients from the oracle-supplied
`(sin ω, cos ω)`. -/
def updateCoefficients (trig : ℚ → ℚ → ℚ × ℚ) (e : LowPassEffect) : LowPassEffect :=
  let nyquist := e.sampleRate * (1/2)
  if nyquist ≤ kMinCutoff then
    { e with b0 := 1, b1 := 0, b2 := 0, a1 := 0, a2 := 0 }
  else
    let maxCutoff := nyquist * kMaxCutoffRatio
    let cutoff := clampQ e.cutoff kMinCutoff (max maxCutoff kMinCutoff)
    let sc := trig cutoff e.sampleRate
    let sinw := sc.1
    let cosw := sc.2
    let alpha := sinw / (2 * e.q)
    let nb0 := (1 - cosw) * (1/2)
    let nb1 := 1 - cosw
    let nb2 := (1 - cosw) * (1/2)
    let na0 := 1 + alpha
    let na1 := -2 * cosw
    let na2 := 1 - alpha
    let invA0 := 1 / na0
    { e with b0 := nb0 * invA0, b1 := nb1 * invA0, b2 := nb2 * invA0,
             a1 := na1 * invA0, a2 := na2 * invA0 }

/-- `setCutoff(cutoff)`: clamp into `[kMinCutoff, 0.45·Nyquist]`, skip
sub-epsilon changes, otherwise store and recompute coefficients. -/
def setCutoff (trig : ℚ → ℚ → ℚ × ℚ) (e : LowPassEffect) (cutoff : ℚ) : LowPassEffect :=
  let maxCutoff := e.sampleRate * (1/2) * kMaxCutoffRatio
  let clamped := clampQ cutoff kMinCutoff (max maxCutoff kMinCutoff)
  if |clamped - e.cutoff| < 1/1000 then e
  else ({ e with cutoff := clamped }).updateCoefficients trig

/-- `setSampleRate(sampleRate)` -/
def setSampleRate (trig : ℚ → ℚ → ℚ × ℚ) (e : LowPassEffect) (sampleRate : ℚ) : LowPassEffect :=
  let clampedRate := max sampleRate kMinSampleRate
  if |clampedRate - e.sampleRate| < 1/1000 then e
  else
    let e := { e with sampleRate := clampedRate }
    let e := { e with cutoff := clampQ e.cutoff kMinCutoff ((e.sampleRate * (1/2)) * kMaxCutoffRatio) }
    e.updateCoefficients trig

/-- `setResonance(resonance)` -/
def setResonance (trig : ℚ → ℚ → ℚ × ℚ) (e : LowPassEffect) (resonance : ℚ) : LowPassEffect :=
  let clamped := clampQ resonance kMinQ kMaxQ
  if |clamped - e.q| < 1/1000 then e
  else ({ e with q := clamped }).updateCoefficients trig

/-- `setMix(mix)` -/
def setMix (e : LowPassEffect) (mix : ℚ) : LowPassEffect :=
  { e with mix := clampQ mix 0 1 }

/-- `reset()` -/
def reset (e : LowPassEffect) : LowPassEffect :=
  { e with z1L := 0, z2L := 0, z1R := 0, z2R := 0 }

/-- Constructor `LowPassEffect(cutoff, sampleRate, resonance, mix)`:
members start at the cutoff floor and zero coefficients, then
`setCutoff` runs. -/
def create (trig : ℚ → ℚ → ℚ × ℚ) (cutoff sampleRate resonance mix : ℚ) : LowPassEffect :=
  let e : LowPassEffect :=
    { cutoff := kMinCutoff
      sampleRate := max sampleRate kMinSampleRate
      q := clampQ resonance kMinQ kMaxQ
      mix := clampQ mix 0 1
      b0 := 0, b1 := 0, b2 := 0, a1 := 0, a2 := 0
      z1L := 0, z2L := 0, z1R := 0, z2R := 0 }
  e.setCutoff trig cutoff

/-- `updateCoefficients` only rewrites the five coefficients; the stored
cutoff is untouched on both branches. -/
theorem cutoff_updateCoefficients (trig : ℚ → ℚ → ℚ × ℚ) (e : LowPassEffect) :
    (e.updateCoefficients trig).cutoff = e.cutoff := by
  simp only [updateCoefficients]
  split_ifs <;> rfl

/-- `process(stereoSample)`: Direct Form II Transposed per channel with
dry/wet mix. -/
def process (e : LowPassEffect) (stereoSample : ℚ × ℚ) : (ℚ × ℚ) × LowPassEffect :=
  let dryLeft := stereoSample.1
  let wetLeft := e.b0 * dryLeft + e.z1L
  let z1L := e.b1 * dryLeft + e.z2L - e.a1 * wetLeft
  let z2L := e.b2 * dryLeft - e.a2 * wetLeft
  let outLeft := (1 - e.mix) * dryLeft + e.mix * wetLeft
  let dryRight := stereoSample.2
  let wetRight := e.b0 * dryRight + e.z1R
  let z1R := e.b1 * dryRight + e.z2R - e.a1 * wetRight
  let z2R := e.b2 * dryRight - e.a2 * wetRight
  let outRight := (1 - e.mix) * dryRight + e.mix * wetRight
  ((outLeft, outRight), { e with z1L := z1L, z2L := z2L, z1R := z1R, z2R := z2R })

end LowPassEffect

/-! ## OctaveEffect (Effects/OctaveEffect.cpp) — only the members the
engine's note-trigger path touches are needed by the claims; `process`
(which calls `std::tanh`) is not referenced by any claim and is omitted. -/

structure OctaveEffect where
  higher : Bool
  blend : ℚ
  phase : ℚ
  frequency : ℚ
  sampleRate : ℚ
  stateL : ℚ
  stateR : ℚ
  deriving DecidableEq, Repr

namespace OctaveEffect

/-- Constructor `OctaveEffect(higher, blend)`. -/
def create (higher : Bool) (blend : ℚ) : OctaveEffect :=
  { higher := higher
    blend := min (max blend 0) 1
    phase := 0
    frequency := 0
    sampleRate := 44100
    stateL := 0
    stateR := 0 }

/-- `setFrequency(frequency)`: only frequencies in `(0, 20000]` are stored. -/
def setFrequency (o : OctaveEffect) (frequency : ℚ) : OctaveEffect :=
  if 0 < frequency ∧ frequency ≤ 20000 then { o with frequency := frequency } else o

/-- `setSampleRate(sampleRate)`: only positive rates are stored. -/
def setSampleRate (o : OctaveEffect) (sampleRate : ℚ) : OctaveEffect :=
  if 0 < sampleRate then { o with sampleRate := sampleRate } else o

/-- `setHigher(higher)` -/
def setHigher (o : OctaveEffect) (higher : Bool) : OctaveEffect :=
  { o with higher := higher }

/-- `setBlend(blend)` -/
def setBlend (o : OctaveEffect) (blend : ℚ) : OctaveEffect :=
  { o with blend := min (max blend 0) 1 }

/-- `reset()` -/
def reset (o : OctaveEffect) : OctaveEffect :=
  { o with phase := 0, stateL := 0, stateR := 0 }

end OctaveEffect

/-! ## ADSREnvelope and waveforms

The file `Envelope/ADSREnvelope.h` is not among the provided sources;
only what the engine claims need is modelled. -/

/-- Envelope stage of the ADSR state machine. -/
inductive EnvStage where
  | idle
  | attackStage
  | decayStage
  | sustainStage
  | releaseStage
  deriving DecidableEq, Repr

/-- Modelled from the spec: `Envelope/ADSREnvelope.h` is absent from the
sources; §4.2 gives the constructor parameters (attack, decay, sustain,
release) and states that `reset()` returns the envelope to Idle with
level 0, which is all the claims use. -/
structure ADSREnvelope where
  attack : ℚ
  decay : ℚ
  sustain : ℚ
  release : ℚ
  stage : EnvStage
  level : ℚ
  deriving DecidableEq, Repr

namespace ADSREnvelope

/-- Modelled from the spec: construction stores the four parameters and
starts Idle at level 0. -/
def create (attack decay sustain release : ℚ) : ADSREnvelope :=
  { attack := attack, decay := decay, sustain := sustain, release := release
    stage := .idle, level := 0 }

/-- Modelled from the spec: `reset()` returns to Idle, level 0. -/
def reset (e : ADSREnvelope) : ADSREnvelope :=
  { e with stage := .idle, level := 0 }

end ADSREnvelope

/-- The closed set of waveform generators (`Waves/…`); the engine only
selects among them, which is all the claims need. -/
inductive Waveform where
  | square
  | sine
  | sawtooth
  | triangle
  deriving DecidableEq, Repr

/-- One effect handle in the engine's chain, as the closed set of
concrete effect types the engine downcasts to. -/
inductive EffectState where
  | octave (o : OctaveEffect)
  | delay (d : DelayEffect)
  | lowpass (lp : LowPassEffect)
  deriving DecidableEq, Repr

/-! ## AudioSystem engine (Core/audioSystem.h + its implementation)

The `std::shared_ptr<IWave>` selections become `Waveform` tags and the
waveform-tap pointer is dropped (no claim touches it).  The two values
drawn from `std::mt19937` inside `triggerNote` — the per-note detune
and the randomized LFO phase — are oracle arguments `noteDetune` and
`randomLfoPhase`, and the low-pass trig oracle is threaded through. -/

structure AudioSystem where
  frequency : ℚ
  sampleRate : ℚ
  primaryPhase : ℚ
  secondaryPhase : ℚ
  noteOn : Bool
  effects : List EffectState
  primaryWaveform : Waveform
  secondaryWaveform : Waveform
  envelope : ADSREnvelope
  activeNotes : List (ℚ × ℚ)
  lfoPhase : ℚ
  lfoRateHz : ℚ
  lfoAmountCents : ℚ
  noteJitterAmountCents : ℚ
  noteDetuneCents : ℚ
  secondaryEnabled : Bool
  secondaryMix : ℚ
  secondaryDetuneCents : ℚ
  secondaryOctaveOffset : ℤ
  pitchBendCents : ℚ
  lowPassActive : Bool
  lastLowPassCutoff : ℚ
  deriving DecidableEq, Repr

namespace AudioSystem

/-- Constructor `AudioSystem(sampleRate)`: every member of the
initializer list, including the non-positive sample-rate fallback to
44100 Hz, the square-wave default and the default ADSR parameters. -/
def create (sampleRate : ℚ) : AudioSystem :=
  { frequency := 0
    sampleRate := if 0 < sampleRate then sampleRate else 44100
    primaryPhase := 0
    secondaryPhase := 0
    noteOn := false
    effects := []
    primaryWaveform := .square
    secondaryWaveform := .square
    envelope := ADSREnvelope.create (1/10) (2/10) (7/10) (3/10)
    activeNotes := []
    lfoPhase := 0
    lfoRateHz := 35/100
    lfoAmountCents := 4
    noteJitterAmountCents := 3
    noteDetuneCents := 0
    secondaryEnabled := false
    secondaryMix := 0
    secondaryDetuneCents := 0
    secondaryOctaveOffset := 0
    pitchBendCents := 0
    lowPassActive := false
    lastLowPassCutoff := 0 }

/-- The per-effect configuration loop at the end of `triggerNote`:
octave effects receive the note frequency and the sample rate, delay and
low-pass effects receive the sample rate. -/
def configureEffectForNote (trig : ℚ → ℚ → ℚ × ℚ) (frequency sampleRate : ℚ) :
    EffectState → EffectState
  | .octave o => .octave ((o.setFrequency frequency).setSampleRate sampleRate)
  | .delay d => .delay (d.setSampleRate sampleRate)
  | .lowpass lp => .lowpass (lp.setSampleRate trig sampleRate)

/-- `triggerNote(newFrequency)`: drop frequencies outside `(0, 20000]`;
push the note with its random detune, make it current; reset phases,
randomize the LFO phase and reset the envelope only when no note was
active; finally configure the effects for the note. -/
def triggerNote (trig : ℚ → ℚ → ℚ × ℚ) (noteDetune randomLfoPhase : ℚ)
    (newFrequency : ℚ) (s : AudioSystem) : AudioSystem :=
  if newFrequency ≤ 0 ∨ 20000 < newFrequency then s
  else
    let hadActiveNotes := !s.activeNotes.isEmpty
    let s := { s with activeNotes := s.activeNotes ++ [(newFrequency, noteDetune)]
                      frequency := newFrequency
                      noteDetuneCents := noteDetune
                      noteOn := true }
    let s :=
      if hadActiveNotes then s
      else { s with primaryPhase := 0
                    secondaryPhase := 0
                    lfoPhase := randomLfoPhase
                    envelope := s.envelope.reset }
    { s with effects := s.effects.map (configureEffectForNote trig newFrequency s.sampleRate) }

/-- The match predicate of `triggerNoteOff`:
`|active.frequency - frequency| < 1e-3`. -/
def noteMatches (frequency : ℚ) (active : ℚ × ℚ) : Bool :=
  decide (|active.1 - frequency| < 1/1000)

/-- Erase the most recent matching note: the source searches from
`rbegin()` and erases the reverse iterator's base, i.e. the last match. -/
def eraseLastMatch (notes : List (ℚ × ℚ)) (frequency : ℚ) : List (ℚ × ℚ) :=
  ((notes.reverse).eraseP (noteMatches frequency)).reverse

/-- `triggerNoteOff(frequency)` for a non-NaN argument: remove the most
recent matching note; if none remain clear `noteOn`, otherwise the last
remaining note becomes current. -/
def triggerNoteOff (frequency : ℚ) (s : AudioSystem) : AudioSystem :=
  let notes := eraseLastMatch s.activeNotes frequency
  if notes.isEmpty then
    { s with activeNotes := notes, noteOn := false }
  else
    let active := notes.getLastD (0, 0)
    { s with activeNotes := notes
             frequency := active.1
             noteDetuneCents := active.2
             noteOn := true }

/-- `triggerNoteOff()` with the defaulted NaN argument: clear every
active note and drop `noteOn`. -/
def triggerNoteOffAll (s : AudioSystem) : AudioSystem :=
  { s with activeNotes := [], noteOn := false }

/-- `setPitchBend(value)`: clamp the raw wheel value into
`[-8192, 8191]`, normalize non-negative values by 8191 and negative ones
by 8192, scale to ±100 cents. -/
def setPitchBend (value : ℤ) (s : AudioSystem) : AudioSystem :=
  let clamped : ℤ := max (-8192) (min 8191 value)
  let normalized : ℚ :=
    if 0 ≤ clamped then (clamped : ℚ) / 8191 else (clamped : ℚ) / 8192
  { s with pitchBendCents := normalized * (1 * 100) }

end AudioSystem

/-! ## AudioSystemAdapter (the MIDI translator)

`MIDI_NOTE_FREQUENCIES` lives in `Common/notes.h`, which is absent from
the sources; the table is therefore a parameter `freqTable` (the spec
gives it as `f(n) = 440·2^((n-69)/12)`).  The CC7 cutoff curve
`80·(12000/80)^(data2/127)` is transcendental and is supplied by the
`ccCurve` oracle; the branch structure of `update` is reproduced
exactly. -/

inductive MidiEventType where
  | noteOnEvent
  | noteOffEvent
  | pitchBendEvent
  | controlChangeEvent
  | otherEvent
  deriving DecidableEq, Repr

structure MidiEvent where
  type : MidiEventType
  data1 : ℕ
  data2 : ℕ
  value : ℤ
  deriving DecidableEq, Repr

/-- The engine call the translator makes for one event. -/
inductive EngineCall where
  | triggerNote (frequency : ℚ)
  | triggerNoteOff (frequency : ℚ)
  | triggerNoteOffAll
  | setPitchBend (value : ℤ)
  | setLowPassCutoff (cutoff : ℚ)
  | noCall
  deriving DecidableEq, Repr

/-- `AudioSystemAdapter::update(params)`: the dispatch on the event
type, including the table-bounds checks on `data1` and the CC7 guard. -/
def adapterUpdate (freqTable : List ℚ) (ccCurve : ℕ → ℚ) (event : MidiEvent) : EngineCall :=
  match event.type with
  | .noteOnEvent =>
      if event.data1 < freqTable.length then
        .triggerNote (freqTable.getD event.data1 0)
      else .noCall
  | .noteOffEvent =>
      if event.data1 < freqTable.length then
        .triggerNoteOff (freqTable.getD event.data1 0)
      else .triggerNoteOffAll
  | .pitchBendEvent => .setPitchBend event.value
  | .controlChangeEvent =>
      if event.data1 = 7 then .setLowPassCutoff (ccCurve event.data2) else .noCall
  | .otherEvent => .noCall

/-! ## Shared helper lemmas -/

theorem clampQ_bounds (v low high : ℚ) (h : low ≤ high) :
    low ≤ clampQ v low high ∧ clampQ v low high ≤ high := by
  unfold clampQ
  split
  · exact ⟨le_refl _, h⟩
  · split
    · exact ⟨h, le_refl _⟩
    · constructor <;> linarith [not_lt.mp (by assumption : ¬ v < low)]

theorem clampN_eq_min_max (v low high : ℕ) (h : low ≤ high) :
    clampN v low high = min (max v low) high := by
  unfold clampN
  split
  · omega
  · split <;> omega

/-! ## Spec-side formulas (written from the specification's words, for
the refinement-style claims) -/

/-- Spec formula for the pitch-bend offset (§4.8 table and testable
property 7): clamp into `[-8192, 8191]`, divide non-negative values by
8191 and negative ones by 8192, scale by 100 cents. -/
def pitchBendCentsSpec (raw : ℤ) : ℚ :=
  let clamped : ℤ := max (-8192) (min 8191 raw)
  if 0 ≤ clamped then ((clamped : ℚ) / 8191) * 100 else ((clamped : ℚ) / 8192) * 100

/-- Spec formula for the delay read position: `(write + len - D) mod len`. -/
def delayReadIndexSpec (write len dsamp : ℕ) : ℕ := (write + len - dsamp) % len

/-- Spec formula for the delay output: `(1 - mix)·x + mix·delayed`. -/
def delayOutSpec (mix x delayed : ℚ) : ℚ := (1 - mix) * x + mix * delayed

/-- Spec formula for the value stored in the delay line:
`clamp(x + feedback·delayed, -2, +2)`. -/
def delayStoreSpec (feedback x delayed : ℚ) : ℚ :=
  clampQ (x + feedback * delayed) (-2) 2

/-- Spec formula for the delay offset: `round(delay_time·sample_rate)`
clamped into `[1, len - 1]`. -/
def delaySamplesSpec (delayTime sampleRate : ℚ) (len : ℕ) : ℕ :=
  min (max (roundN (delayTime * sampleRate)) 1) (len - 1)

/-! ## Claim C10 -/

/-- Claim C10: a non-positive constructor sample rate falls back to
44100 Hz, while every positive sample rate — including values below the
100 Hz minimum the spec demands elsewhere — is stored unchanged. -/
theorem audioSystem_create_sampleRate_spec (sampleRate : ℚ) :
    (sampleRate ≤ 0 → (AudioSystem.create sampleRate).sampleRate = 44100) ∧
    (0 < sampleRate → (AudioSystem.create sampleRate).sampleRate = sampleRate) := by
  constructor <;> intro h
  · simp [AudioSystem.create, not_lt.mpr h]
  · simp [AudioSystem.create, h]

/-- Witness for C10 at the concrete sample rates `-5` and `50` (the
latter below the 100 Hz minimum). -/
theorem audioSystem_create_sampleRate_spec_witness :
    (AudioSystem.create (-5)).sampleRate = 44100 ∧
    (AudioSystem.create 50).sampleRate = 50 :=
  ⟨(audioSystem_create_sampleRate_spec (-5)).1 (by norm_num),
   (audioSystem_create_sampleRate_spec 50).2 (by norm_num)⟩

/-! ## Claim C3 -/

/-- Claim C3: `set_pitch_bend(raw)` clamps into `[-8192, 8191]` and maps
the clamped value to `(raw/8191)·100` cents when non-negative and
`(raw/8192)·100` cents when negative; in particular raw values 0, 8191
and -8192 give 0, +100 and -100 cents. -/
theorem setPitchBend_spec (raw : ℤ) (s : AudioSystem) :
    (s.setPitchBend raw).pitchBendCents = pitchBendCentsSpec raw ∧
    (s.setPitchBend 0).pitchBendCents = 0 ∧
    (s.setPitchBend 8191).pitchBendCents = 100 ∧
    (s.setPitchBend (-8192)).pitchBendCents = -100 := by
  refine ⟨?_, ?_, ?_, ?_⟩
  · simp only [AudioSystem.setPitchBend, pitchBendCentsSpec]
    split <;> ring
  · norm_num [AudioSystem.setPitchBend]
  · norm_num [AudioSystem.setPitchBend]
  · norm_num [AudioSystem.setPitchBend]

/-! ## Claim C7 -/

/-- Claim C7: `trigger_note` with a frequency outside `(0, 20000]`
returns without modifying any engine state (the whole state record is
unchanged, so active notes, current frequency, `note_on`, phases, note
detune, envelope and the effect chain are all untouched). -/
theorem triggerNote_out_of_range_spec (trig : ℚ → ℚ → ℚ × ℚ)
    (noteDetune randomLfoPhase f : ℚ) (s : AudioSystem)
    (h : f ≤ 0 ∨ 20000 < f) :
    s.triggerNote trig noteDetune randomLfoPhase f = s := by
  simp [AudioSystem.triggerNote, h]

/-- Witness for C7: triggering 25000 Hz on a freshly created engine
changes nothing. -/
theorem triggerNote_out_of_range_spec_witness :
    (AudioSystem.create 44100).triggerNote (fun _ _ => (0, 1)) 1 (1/2) 25000 =
      AudioSystem.create 44100 :=
  triggerNote_out_of_range_spec (fun _ _ => (0, 1)) 1 (1/2) 25000
    (AudioSystem.create 44100) (by norm_num)

/-! ## Claim C6 -/

/-- Claim C6: starting from a state with no active notes, a valid
`trigger_note(f)` followed by `trigger_note_off(f)` leaves the active
note list empty and `note_on = false`. -/
theorem triggerNote_then_off_spec (trig : ℚ → ℚ → ℚ × ℚ)
    (noteDetune randomLfoPhase f : ℚ) (s : AudioSystem)
    (hempty : s.activeNotes = []) (h0 : 0 < f) (h2 : f ≤ 20000) :
    ((s.triggerNote trig noteDetune randomLfoPhase f).triggerNoteOff f).activeNotes = [] ∧
    ((s.triggerNote trig noteDetune randomLfoPhase f).triggerNoteOff f).noteOn = false := by
  have hcond : ¬ (f ≤ 0 ∨ 20000 < f) := by push_neg; exact ⟨h0, h2⟩
  have hmatch : AudioSystem.noteMatches f (f, noteDetune) = true := by
    simp [AudioSystem.noteMatches]
  simp [AudioSystem.triggerNote, hcond, hempty, AudioSystem.triggerNoteOff,
    AudioSystem.eraseLastMatch, hmatch]

/-- Witness for C6 on a fresh engine at 440 Hz. -/
theorem triggerNote_then_off_spec_witness :
    (((AudioSystem.create 44100).triggerNote (fun _ _ => (0, 1)) 2 (1/3) 440).triggerNoteOff
        440).activeNotes = [] ∧
    (((AudioSystem.create 44100).triggerNote (fun _ _ => (0, 1)) 2 (1/3) 440).triggerNoteOff
        440).noteOn = false :=
  triggerNote_then_off_spec (fun _ _ => (0, 1)) 2 (1/3) 440 (AudioSystem.create 44100)
    rfl (by norm_num) (by norm_num)

/-! ## Claim C8 -/

/-- Claim C8: a valid `trigger_note(f)` leaves the primary phase, the
secondary phase, the LFO phase and the envelope untouched whenever some
note is already active; the phases are zeroed, the LFO phase replaced by
the random draw and the envelope reset exactly when no note was
previously active. -/
theorem triggerNote_legato_spec (trig : ℚ → ℚ → ℚ × ℚ)
    (noteDetune randomLfoPhase f : ℚ) (s : AudioSystem)
    (h0 : 0 < f) (h2 : f ≤ 20000) :
    (s.activeNotes ≠ [] →
      (s.triggerNote trig noteDetune randomLfoPhase f).primaryPhase = s.primaryPhase ∧
      (s.triggerNote trig noteDetune randomLfoPhase f).secondaryPhase = s.secondaryPhase ∧
      (s.triggerNote trig noteDetune randomLfoPhase f).lfoPhase = s.lfoPhase ∧
      (s.triggerNote trig noteDetune randomLfoPhase f).envelope = s.envelope) ∧
    (s.activeNotes = [] →
      (s.triggerNote trig noteDetune randomLfoPhase f).primaryPhase = 0 ∧
      (s.triggerNote trig noteDetune randomLfoPhase f).secondaryPhase = 0 ∧
      (s.triggerNote trig noteDetune randomLfoPhase f).lfoPhase = randomLfoPhase ∧
      (s.triggerNote trig noteDetune randomLfoPhase f).envelope = s.envelope.reset) := by
  have hcond : ¬ (f ≤ 0 ∨ 20000 < f) := by push_neg; exact ⟨h0, h2⟩
  constructor <;> intro hnotes
  · have : s.activeNotes.isEmpty = false := by
      cases hn : s.activeNotes with
      | nil => exact absurd hn hnotes
      | cons a l => simp
    simp [AudioSystem.triggerNote, hcond, this]
  · simp [AudioSystem.triggerNote, hcond, hnotes]

/-- Witness for C8: the legato branch at a state holding one note and
the reset branch on a fresh engine. -/
theorem triggerNote_legato_spec_witness :
    (((AudioSystem.create 48000).triggerNote (fun _ _ => (0, 1)) 2 (1/3) 220).triggerNote
        (fun _ _ => (0, 1)) 1 (1/4) 440).lfoPhase = (1/3 : ℚ) ∧
    ((AudioSystem.create 48000).triggerNote (fun _ _ => (0, 1)) 2 (1/3) 220).lfoPhase
      = (1/3 : ℚ) := by
  have base := triggerNote_legato_spec (fun _ _ => (0, 1)) 2 (1/3) 220
    (AudioSystem.create 48000) (by norm_num) (by norm_num)
  have hbase : ((AudioSystem.create 48000).triggerNote (fun _ _ => (0, 1)) 2 (1/3)
      220).lfoPhase = (1/3 : ℚ) := (base.2 rfl).2.2.1
  have step := triggerNote_legato_spec (fun _ _ => (0, 1)) 1 (1/4) 440
    ((AudioSystem.create 48000).triggerNote (fun _ _ => (0, 1)) 2 (1/3) 220)
    (by norm_num) (by norm_num)
  have hne : ((AudioSystem.create 48000).triggerNote (fun _ _ => (0, 1)) 2 (1/3)
      220).activeNotes ≠ [] := by decide
  exact ⟨((step.1 hne).2.2.1).trans hbase, hbase⟩

/-! ## Claim C1 -/

/-- Claim C1 counterexample: a NOTE_ON event with velocity byte
`data2 = 0` for a note inside the frequency table makes the translator
call `trigger_note`, not `trigger_note_off` — the NOTE_ON branch never
inspects the velocity byte. -/
theorem adapter_noteOn_ignores_velocity_cex :
    adapterUpdate [261, 440] (fun _ => 0)
        { type := .noteOnEvent, data1 := 1, data2 := 0, value := 0 }
      = .triggerNote 440 ∧
    adapterUpdate [261, 440] (fun _ => 0)
        { type := .noteOnEvent, data1 := 1, data2 := 0, value := 0 }
      ≠ .triggerNoteOff 440 := by
  decide

/-- Claim C1 (amended): for every in-table NOTE_ON event the translator
calls `trigger_note` with the table frequency regardless of the velocity
byte (so also for velocity 0), and for every in-table NOTE_OFF event it
calls `trigger_note_off` with the table frequency. -/
theorem adapter_note_events_spec (freqTable : List ℚ) (ccCurve : ℕ → ℚ)
    (event : MidiEvent) (h : event.data1 < freqTable.length) :
    (event.type = .noteOnEvent →
      adapterUpdate freqTable ccCurve event =
        .triggerNote (freqTable.getD event.data1 0)) ∧
    (event.type = .noteOffEvent →
      adapterUpdate freqTable ccCurve event =
        .triggerNoteOff (freqTable.getD event.data1 0)) := by
  constructor <;> intro ht <;> simp [adapterUpdate, ht, h]

/-- Witness for the amended C1 at a velocity-0 NOTE_ON and a NOTE_OFF. -/
theorem adapter_note_events_spec_witness :
    adapterUpdate [261, 440] (fun _ => 0)
        { type := .noteOnEvent, data1 := 0, data2 := 0, value := 0 }
      = .triggerNote 261 ∧
    adapterUpdate [261, 440] (fun _ => 0)
        { type := .noteOffEvent, data1 := 0, data2 := 64, value := 0 }
      = .triggerNoteOff 261 :=
  ⟨(adapter_note_events_spec [261, 440] (fun _ => 0)
      { type := .noteOnEvent, data1 := 0, data2 := 0, value := 0 } (by decide)).1 rfl,
   (adapter_note_events_spec [261, 440] (fun _ => 0)
      { type := .noteOffEvent, data1 := 0, data2 := 64, value := 0 } (by decide)).2 rfl⟩

/-! ## Claim C5 -/

/-- Concrete trig oracle values for the C5 counterexample: rational
approximations of `(sin ω, cos ω)` at `ω = 2π·20/44100 ≈ 0.00285` (the
refutation is independent of the exact values, because the non-collapse
branch always yields `b0 = b2`). -/
def trigNear20 : ℚ → ℚ → ℚ × ℚ := fun _ _ => (1/350, 9999959/10000000)

/-- Claim C5 counterexample: construct the low-pass effect at cutoff
1000 Hz and sample rate 44100 Hz, then call `setCutoff(10)`.  The
stored cutoff clamps to exactly the 20 Hz minimum, yet the recomputed
coefficients are the ordinary normalized RBJ values, not the
pass-through set `(b0, b1, b2, a1, a2) = (1, 0, 0, 0, 0)`: the collapse
branch requires `Nyquist ≤ 20 Hz`, which the 100 Hz sample-rate floor
makes unreachable. -/
theorem lowPass_passthrough_cex :
    ((LowPassEffect.create trigNear20 1000 44100 (9/10) 1).setCutoff trigNear20 10).cutoff
      = 20 ∧
    ¬ (((LowPassEffect.create trigNear20 1000 44100 (9/10) 1).setCutoff
          trigNear20 10).b0 = 1 ∧
       ((LowPassEffect.create trigNear20 1000 44100 (9/10) 1).setCutoff
          trigNear20 10).b1 = 0 ∧
       ((LowPassEffect.create trigNear20 1000 44100 (9/10) 1).setCutoff
          trigNear20 10).b2 = 0 ∧
       ((LowPassEffect.create trigNear20 1000 44100 (9/10) 1).setCutoff
          trigNear20 10).a1 = 0 ∧
       ((LowPassEffect.create trigNear20 1000 44100 (9/10) 1).setCutoff
          trigNear20 10).a2 = 0) := by
  norm_num [LowPassEffect.create, LowPassEffect.setCutoff,
    LowPassEffect.updateCoefficients, trigNear20, clampQ, kMinCutoff,
    kMaxCutoffRatio, kMinSampleRate, kMinQ, kMaxQ, abs_sub_lt_iff, max_def]

/-- Claim C5 (amended): `setCutoff` keeps the stored cutoff inside
`[20 Hz, 0.45·(sample_rate/2)]`, but the coefficients never collapse to
pass-through: the collapse branch fires only when the Nyquist frequency
is at most 20 Hz, impossible under the 100 Hz sample-rate floor, and the
recomputed RBJ coefficients always satisfy `b0 = b2` (for any values of
`sin ω` and `cos ω`), which contradicts `b0 = 1 ∧ b2 = 0`. -/
theorem lowPass_setCutoff_spec (trig : ℚ → ℚ → ℚ × ℚ) (e : LowPassEffect) (c : ℚ)
    (hsr : 100 ≤ e.sampleRate) (hlo : kMinCutoff ≤ e.cutoff)
    (hhi : e.cutoff ≤ e.sampleRate * (1/2) * kMaxCutoffRatio) :
    (kMinCutoff ≤ (e.setCutoff trig c).cutoff ∧
      (e.setCutoff trig c).cutoff ≤ e.sampleRate * (1/2) * kMaxCutoffRatio) ∧
    (e.updateCoefficients trig).b0 = (e.updateCoefficients trig).b2 := by
  have hmax : kMinCutoff ≤ e.sampleRate * (1/2) * kMaxCutoffRatio := by
    unfold kMinCutoff kMaxCutoffRatio
    nlinarith
  have hmaxeq : max (e.sampleRate * (1/2) * kMaxCutoffRatio) kMinCutoff
      = e.sampleRate * (1/2) * kMaxCutoffRatio := max_eq_left hmax
  constructor
  · simp only [LowPassEffect.setCutoff]
    split_ifs with hguard
    · exact ⟨hlo, hhi⟩
    · rw [LowPassEffect.cutoff_updateCoefficients]
      show kMinCutoff ≤ clampQ c kMinCutoff
          (max (e.sampleRate * (1/2) * kMaxCutoffRatio) kMinCutoff) ∧
        clampQ c kMinCutoff
          (max (e.sampleRate * (1/2) * kMaxCutoffRatio) kMinCutoff) ≤
          e.sampleRate * (1/2) * kMaxCutoffRatio
      rw [hmaxeq]
      exact clampQ_bounds c kMinCutoff _ hmax
  · simp only [LowPassEffect.updateCoefficients]
    split_ifs with hle
    · exfalso
      unfold kMinCutoff at hle
      nlinarith
    · rfl

/-- A concrete in-range low-pass state for the C5 witness. -/
def lowPassWitnessState : LowPassEffect :=
  { cutoff := 1000
    sampleRate := 44100
    q := 9/10
    mix := 1
    b0 := 0, b1 := 0, b2 := 0, a1 := 0, a2 := 0
    z1L := 0, z2L := 0, z1R := 0, z2R := 0 }

/-- Witness for the amended C5 at a concrete in-range effect state. -/
theorem lowPass_setCutoff_spec_witness :
    kMinCutoff ≤ (lowPassWitnessState.setCutoff trigNear20 500).cutoff := by
  have h := lowPass_setCutoff_spec trigNear20 lowPassWitnessState 500
    (by norm_num [lowPassWitnessState])
    (by norm_num [lowPassWitnessState, kMinCutoff])
    (by norm_num [lowPassWitnessState, kMaxCutoffRatio])
  exact h.1.1

/-! ## Claim C4 -/

/-- Claim C4: for a delay state with non-empty buffers, `process`
returns `(1-mix)·x + mix·delayed` per channel where
`delayed = buf[(write + len - D) mod len]`, stores
`clamp(x + feedback·delayed, ±2)` at the write position, advances the
write index modulo the length; and `updateDelaySamples` sets `D` to
`round(delay_time·sample_rate)` clamped into `[1, len - 1]`. -/
theorem delay_process_spec (d : DelayEffect) (x : ℚ × ℚ)
    (hlen : 2 ≤ d.bufferLength) :
    ((d.process x).1.1 = delayOutSpec d.mix x.1
        (d.bufferLeft.getD (delayReadIndexSpec d.writeIndex d.bufferLength d.delaySamples) 0) ∧
      (d.process x).1.2 = delayOutSpec d.mix x.2
        (d.bufferRight.getD (delayReadIndexSpec d.writeIndex d.bufferLength d.delaySamples) 0) ∧
      (d.process x).2.bufferLeft = d.bufferLeft.set d.writeIndex
        (delayStoreSpec d.feedback x.1
          (d.bufferLeft.getD (delayReadIndexSpec d.writeIndex d.bufferLength d.delaySamples) 0)) ∧
      (d.process x).2.bufferRight = d.bufferRight.set d.writeIndex
        (delayStoreSpec d.feedback x.2
          (d.bufferRight.getD (delayReadIndexSpec d.writeIndex d.bufferLength d.delaySamples) 0)) ∧
      (d.process x).2.writeIndex = (d.writeIndex + 1) % d.bufferLength) ∧
    (d.updateDelaySamples).delaySamples =
      delaySamplesSpec d.delayTime d.sampleRate d.bufferLength := by
  have hne : d.bufferLength ≠ 0 := by omega
  constructor
  · simp only [DelayEffect.process]
    rw [if_neg hne]
    refine ⟨rfl, rfl, ?_, ?_, rfl⟩ <;>
      · simp only [delayStoreSpec, delayReadIndexSpec]
        rw [mul_comm d.feedback]
  · simp only [DelayEffect.updateDelaySamples]
    rw [if_neg hne]
    exact clampN_eq_min_max _ 1 (d.bufferLength - 1) (by omega)

/-- A hand-built three-sample delay state for the C4 witness. -/
def delayWitnessState : DelayEffect :=
  { bufferLeft := [1, 2, 3]
    bufferRight := [4, 5, 6]
    writeIndex := 0
    delaySamples := 1
    delayTime := 3/10
    feedback := 1/2
    mix := 1/2
    sampleRate := 44100 }

/-- Witness for C4 at a hand-built three-sample delay state. -/
theorem delay_process_spec_witness :
    (delayWitnessState.process (1, 1)).1.1 = delayOutSpec (1/2) 1 3 := by
  have h := delay_process_spec delayWitnessState (1, 1) (by decide)
  have h1 := h.1.1
  simpa [delayWitnessState, delayReadIndexSpec] using h1

/-! ## Claim C2 -/

theorem getD_set_ne (l : List ℚ) (i j : ℕ) (a : ℚ) (h : i ≠ j) :
    (l.set i a).getD j 0 = l.getD j 0 := by
  rw [List.getD_eq_getElem?_getD, List.getD_eq_getElem?_getD, List.getElem?_set_ne h]

theorem getD_set_self (l : List ℚ) (i : ℕ) (a : ℚ) (h : i < l.length) :
    (l.set i a).getD i 0 = a := by
  rw [List.getD_eq_getElem?_getD, List.getElem?_set_eq_of_lt a h]
  rfl

theorem getD_append_left (l l2 : List (ℚ × ℚ)) (i : ℕ) (h : i < l.length) :
    (l ++ l2).getD i (0, 0) = l.getD i (0, 0) := by
  rw [List.getD_eq_getElem?_getD, List.getD_eq_getElem?_getD, List.getElem?_append_left h]

theorem getD_concat_length (l : List (ℚ × ℚ)) (y : ℚ × ℚ) :
    (l ++ [y]).getD l.length (0, 0) = y := by
  rw [List.getD_eq_getElem?_getD, List.getElem?_concat_length]
  rfl

theorem pushAll_concat (s : StereoSampleRingBuffer) (xs : List (ℚ × ℚ)) (x : ℚ × ℚ) :
    s.pushAll (xs ++ [x]) = (s.pushAll xs).push x.1 x.2 := by
  simp [StereoSampleRingBuffer.pushAll, List.foldl_append]

/-- State of a freshly created buffer after pushing `xs.length ≤ C`
frames: capacity and store size are fixed, the frame counter equals the
number of pushes, the write index is the push count modulo the capacity,
and frame `i` of the store holds push `i`. -/
theorem pushAll_create_spec (C : ℕ) (hC : 1 ≤ C) (xs : List (ℚ × ℚ))
    (h : xs.length ≤ C) :
    ((StereoSampleRingBuffer.create C).pushAll xs).capacityFrames = C ∧
    ((StereoSampleRingBuffer.create C).pushAll xs).buffer.length = C * 2 ∧
    ((StereoSampleRingBuffer.create C).pushAll xs).totalFramesWritten = xs.length ∧
    ((StereoSampleRingBuffer.create C).pushAll xs).writeIndex = xs.length % C ∧
    ∀ i, i < xs.length →
      ((StereoSampleRingBuffer.create C).pushAll xs).buffer.getD (i * 2) 0
          = (xs.getD i (0, 0)).1 ∧
      ((StereoSampleRingBuffer.create C).pushAll xs).buffer.getD (i * 2 + 1) 0
          = (xs.getD i (0, 0)).2 := by
  induction xs using List.reverseRecOn with
  | nil =>
      refine ⟨?_, ?_, rfl, rfl, ?_⟩
      · simp [StereoSampleRingBuffer.pushAll, StereoSampleRingBuffer.create,
          Nat.max_eq_right hC]
      · simp [StereoSampleRingBuffer.pushAll, StereoSampleRingBuffer.create,
          Nat.max_eq_right hC]
      · intro i hi
        exact absurd hi (by simp)
  | append_singleton ys y ih =>
      have hys : ys.length ≤ C := by
        rw [List.length_append, List.length_singleton] at h
        omega
      have hlt : ys.length < C := by
        rw [List.length_append, List.length_singleton] at h
        omega
      obtain ⟨hcap, hlen, htot, hw, hcontent⟩ := ih hys
      have hw' : ((StereoSampleRingBuffer.create C).pushAll ys).writeIndex = ys.length :=
        hw.trans (Nat.mod_eq_of_lt hlt)
      rw [pushAll_concat]
      refine ⟨?_, ?_, ?_, ?_, ?_⟩
      · simp only [StereoSampleRingBuffer.push]
        exact hcap
      · simp only [StereoSampleRingBuffer.push, List.length_set]
        exact hlen
      · simp only [StereoSampleRingBuffer.push]
        rw [htot, List.length_append, List.length_singleton]
      · simp only [StereoSampleRingBuffer.push, hw', hcap]
        rw [List.length_append, List.length_singleton]
        split_ifs with hge
        · have hceq : ys.length + 1 = C := by omega
          rw [hceq, Nat.mod_self]
        · rw [Nat.mod_eq_of_lt (by omega)]
      · intro i hi
        simp only [StereoSampleRingBuffer.push, hw']
        rw [List.length_append, List.length_singleton] at hi
        rcases Nat.lt_or_ge i ys.length with hilt | hige
        · have hne1 : ys.length * 2 ≠ i * 2 := by omega
          have hne2 : ys.length * 2 + 1 ≠ i * 2 := by omega
          have hne3 : ys.length * 2 ≠ i * 2 + 1 := by omega
          have hne4 : ys.length * 2 + 1 ≠ i * 2 + 1 := by omega
          rw [getD_set_ne _ _ _ _ hne2, getD_set_ne _ _ _ _ hne1,
            getD_set_ne _ _ _ _ hne4, getD_set_ne _ _ _ _ hne3,
            getD_append_left _ _ _ hilt]
          exact hcontent i hilt
        · have hieq : i = ys.length := by omega
          subst hieq
          have hlt2 : ys.length * 2 <
              ((StereoSampleRingBuffer.create C).pushAll ys).buffer.length := by
            rw [hlen]; omega
          have hlt2s : ys.length * 2 + 1 <
              (((StereoSampleRingBuffer.create C).pushAll ys).buffer.set
                (ys.length * 2) y.1).length := by
            rw [List.length_set, hlen]; omega
          have hne : ys.length * 2 + 1 ≠ ys.length * 2 := by omega
          constructor
          · rw [getD_set_ne _ _ _ _ hne, getD_set_self _ _ _ hlt2, getD_concat_length]
          · rw [getD_set_self _ _ _ hlt2s, getD_concat_length]

/-- Joining a per-index two-element image of `range` recovers the
interleaved list. -/
theorem flatten_map_range_interleave (xs : List (ℚ × ℚ)) (g : ℕ → List ℚ)
    (hg : ∀ i, i < xs.length → g i = [(xs.getD i (0, 0)).1, (xs.getD i (0, 0)).2]) :
    ((List.range xs.length).map g).flatten = interleave xs := by
  induction xs generalizing g with
  | nil => simp [interleave]
  | cons p ps ih =>
      rw [List.length_cons, List.range_succ_eq_map, List.map_cons, List.flatten_cons,
        hg 0 (Nat.succ_pos _), List.map_map, interleave]
      have := ih (g ∘ Nat.succ) (fun i hi => by
        have := hg (i + 1) (by simpa using Nat.succ_lt_succ hi)
        simpa using this)
      simp only [List.getD_cons_zero] at *
      rw [this]
      rfl

/-- Claim C2: after `N ≤ C` pushes on a freshly constructed buffer of
capacity `C ≥ 1`, `copyLatestInterleaved` with `maxFrames = N` reports
`N` frames and the destination holds the `N` pushed (L,R) pairs
interleaved in push order. -/
theorem ringBuffer_copyLatest_spec (C : ℕ) (xs : List (ℚ × ℚ)) (hC : 1 ≤ C)
    (h : xs.length ≤ C) :
    ((StereoSampleRingBuffer.create C).pushAll xs).copyLatestInterleaved xs.length
      = (xs.length, interleave xs) := by
  rcases Nat.eq_zero_or_pos xs.length with hN | hN
  · rw [List.length_eq_zero.mp hN]
    simp [StereoSampleRingBuffer.copyLatestInterleaved, StereoSampleRingBuffer.pushAll,
      interleave]
  · obtain ⟨hcap, hlen, htot, hw, hcontent⟩ := pushAll_create_spec C hC xs h
    have hN0 : xs.length ≠ 0 := by omega
    have havail : ((StereoSampleRingBuffer.create C).pushAll xs).availableFrames
        = xs.length := by
      rw [StereoSampleRingBuffer.availableFrames, htot, hcap]
      exact Nat.min_eq_left h
    have hstart : (if C ≤ xs.length % C + C - xs.length
          then (xs.length % C + C - xs.length) % C
          else xs.length % C + C - xs.length) = 0 := by
      rcases Nat.lt_or_ge xs.length C with hlt | hge
      · rw [Nat.mod_eq_of_lt hlt]
        have harith : xs.length + C - xs.length = C := by omega
        rw [harith, if_pos (le_refl C), Nat.mod_self]
      · have hceq : xs.length = C := by omega
        subst hceq
        rw [Nat.mod_self]
        have harith : 0 + xs.length - xs.length = 0 := by omega
        rw [harith, if_neg (by omega)]
    rw [StereoSampleRingBuffer.copyLatestInterleaved]
    rw [if_neg hN0]
    simp only [havail, hw, hcap, Nat.min_self, if_neg hN0]
    rw [hstart]
    refine Prod.ext rfl ?_
    refine flatten_map_range_interleave xs _ (fun i hi => ?_)
    have hiC : ¬ (C ≤ i) := by omega
    simp only [Nat.zero_add]
    rw [if_neg hiC]
    obtain ⟨h1, h2⟩ := hcontent i hi
    rw [h1, h2]

/-- Witness for C2: capacity 2, two pushes (the wrap-around boundary
case `N = C`). -/
theorem ringBuffer_copyLatest_spec_witness :
    ((StereoSampleRingBuffer.create 2).pushAll [(1, 2), (3, 4)]).copyLatestInterleaved 2
      = (2, [1, 2, 3, 4]) := by
  have h := ringBuffer_copyLatest_spec 2 [(1, 2), (3, 4)] (by decide) (by decide)
  simpa [interleave] using h

/-! ## Claim C9 -/

/-- `allocateBuffers` leaves the store at the target size and restores
every invariant as long as the delay offset was positive. -/
theorem allocateBuffers_inv (d : DelayEffect) (h1 : 1 ≤ d.delaySamples) :
    (d.allocateBuffers).Inv := by
  simp only [DelayEffect.allocateBuffers, DelayEffect.Inv]
  have h2 : 2 ≤ max (ceilN (kMaxDelaySeconds * d.sampleRate) + 1) 2 := le_max_right _ _
  split_ifs <;>
    simp_all [DelayEffect.bufferLength, List.length_replicate] <;> omega

/-- `updateDelaySamples` preserves the invariant. -/
theorem updateDelaySamples_inv (d : DelayEffect) (h : d.Inv) :
    (d.updateDelaySamples).Inv := by
  obtain ⟨hw, hd1, hd2, hlen⟩ := h
  have hne : ¬ (d.bufferLength = 0) := by omega
  simp only [DelayEffect.updateDelaySamples, if_neg hne, DelayEffect.Inv,
    DelayEffect.bufferLength, clampN] at hw hd1 hd2 hlen ⊢
  split_ifs <;> (try dsimp only) <;> omega

/-- `reset` preserves the invariant. -/
theorem reset_inv (d : DelayEffect) (h : d.Inv) : (d.reset).Inv := by
  obtain ⟨hw, hd1, hd2, hlen⟩ := h
  unfold DelayEffect.reset DelayEffect.Inv DelayEffect.bufferLength at *
  simp only [List.length_replicate]
  exact ⟨by omega, hd1, hd2, hlen⟩

/-- `process` preserves the invariant. -/
theorem process_inv (d : DelayEffect) (x : ℚ × ℚ) (h : d.Inv) :
    ((d.process x).2).Inv := by
  obtain ⟨hw, hd1, hd2, hlen⟩ := h
  simp only [DelayEffect.process]
  have hne : ¬ (d.bufferLength = 0) := by omega
  rw [if_neg hne]
  simp only [DelayEffect.Inv, DelayEffect.bufferLength, List.length_set] at *
  refine ⟨Nat.mod_lt _ (by omega), hd1, hd2, hlen⟩

/-- The constructor establishes the invariant. -/
theorem create_inv (delayTime feedback mix sampleRate : ℚ) :
    (DelayEffect.create delayTime feedback mix sampleRate).Inv := by
  unfold DelayEffect.create
  apply reset_inv
  apply updateDelaySamples_inv
  apply allocateBuffers_inv
  exact le_refl 1

/-- Every public operation preserves the invariant. -/
theorem applyOp_inv (d : DelayEffect) (op : DelayOp) (h : d.Inv) :
    (d.applyOp op).Inv := by
  cases op with
  | process x => exact process_inv d x h
  | reset => exact reset_inv d h
  | setDelayTime t =>
      simp only [DelayEffect.applyOp, DelayEffect.setDelayTime]
      split_ifs with hguard
      · exact h
      · exact updateDelaySamples_inv _ h
  | setFeedback f =>
      obtain ⟨hw, hd1, hd2, hlen⟩ := h
      exact ⟨hw, hd1, hd2, hlen⟩
  | setMix m =>
      obtain ⟨hw, hd1, hd2, hlen⟩ := h
      exact ⟨hw, hd1, hd2, hlen⟩
  | setSampleRate sr =>
      simp only [DelayEffect.applyOp, DelayEffect.setSampleRate]
      split_ifs with hle hguard
      · exact h
      · exact h
      · exact updateDelaySamples_inv _ (allocateBuffers_inv _ h.2.1)

/-- Claim C9: after constructing a `DelayEffect` with any parameters and
applying any sequence of public operations, the state invariant holds:
`write_index < buffer length`, `delay_samples ∈ [1, buffer length - 1]`
and the buffer holds at least two samples. -/
theorem delay_invariant_spec (delayTime feedback mix sampleRate : ℚ)
    (ops : List DelayOp) :
    ((DelayEffect.create delayTime feedback mix sampleRate).applyOps ops).Inv := by
  suffices hstep : ∀ (ops : List DelayOp) (d : DelayEffect), d.Inv → (d.applyOps ops).Inv by
    exact hstep ops _ (create_inv delayTime feedback mix sampleRate)
  intro ops
  induction ops with
  | nil => intro d h; exact h
  | cons op rest ih =>
      intro d h
      exact ih _ (applyOp_inv d op h)

end Mirage
